import Mathlib

/-!
Weekly GitHub activity report (`main.go`)

A shallow embedding of the classification pipeline of `main.go`:
`organizeEvents` (payload decoding, the per-event `switch`, `cleanUp`),
together with the title helpers `prTitle` and `issueTitle`.

Conventions of the embedding.

* A Go `map[string]bool` in which only `true` is ever stored is a finite set
  of keys (`Finset String`). `m[k] = true` is `insert`, `delete(m, k)` is
  `erase`, and a `for k := range m` loop is a fold over the underlying
  multiset of keys, which is only well defined because the loop body is
  insensitive to the iteration order (the `RightCommutative` instances below).
* A Go pointer field of the `go-github` payload structs is an `Option`;
  the generated accessors (`GetTitle`, `GetLogin`, ...) are nil-safe, a direct
  dereference (`*e.RefType`, `e.Issue.User`, a value-receiver method on a nil
  pointer) is not and aborts the run.
* The flag `*user` is an explicit parameter `user`.
-/

namespace GithubSnippets

/-! ## Payload types of the `go-github` library (only the fields `main.go` reads) -/

/-- The `github.User` struct: `Login *string`. -/
structure User where
  Login : Option String
deriving DecidableEq, Repr

/-- The `github.PullRequestLinks` struct; `main.go` only tests the pointer to it for nil. -/
structure PullRequestLinks where
  URL : Option String
deriving DecidableEq, Repr

/-- The `github.Issue` struct. -/
structure Issue where
  Title : Option String
  HTMLURL : Option String
  User : Option User
  PullRequestLinks : Option PullRequestLinks
deriving DecidableEq, Repr

/-- The `github.PullRequest` struct. -/
structure PullRequest where
  Title : Option String
  HTMLURL : Option String
  User : Option User
  Merged : Option Bool
deriving DecidableEq, Repr

/-- The `github.IssueComment` struct: the comment and the login of who wrote it. -/
structure IssueComment where
  User : Option User
deriving DecidableEq, Repr

/-- The `github.PullRequestComment` struct: the review comment and who wrote it. -/
structure PullRequestComment where
  User : Option User
deriving DecidableEq, Repr

/-- The dynamic type of a decoded payload, as the type switch of `organizeEvents` sees it.
`Other` stands for every decoded value of a type the switch does not list. -/
inductive Payload where
  | CommitCommentEvent
  | CreateEvent (RefType : Option String)
  | IssueCommentEvent (Issue : Option Issue) (Comment : Option IssueComment)
  | IssuesEvent (Action : Option String) (Issue : Option Issue)
  | PullRequestEvent (Action : Option String) (PullRequest : Option PullRequest)
  | PullRequestReviewCommentEvent (PullRequest : Option PullRequest)
      (Comment : Option PullRequestComment)
  | PushEvent
  | Other
deriving DecidableEq, Repr

/-- The `github.Event` struct: `CreatedAt *time.Time` as an instant in nanoseconds, and the
outcome of `event.ParsePayload()` (`none` when it returns a non-nil `err`). -/
structure Event where
  CreatedAt : Option Int
  ParsePayload : Option Payload
deriving DecidableEq, Repr

/-! ## Nil-safe accessors generated by `go-github` -/

/-- The accessor `(*User).GetLogin`: the empty string on a nil receiver or nil field. -/
def User.GetLogin : Option User → String
  | some u => u.Login.getD ""
  | none => ""

/-- The accessor `(*Issue).GetTitle`. -/
def Issue.GetTitle : Option Issue → String
  | some i => i.Title.getD ""
  | none => ""

/-- The accessor `(*Issue).GetHTMLURL`. -/
def Issue.GetHTMLURL : Option Issue → String
  | some i => i.HTMLURL.getD ""
  | none => ""

/-- The method `(Issue).IsPullRequest`, on a non-nil issue: `PullRequestLinks != nil`. -/
def Issue.IsPullRequest (i : Issue) : Bool :=
  i.PullRequestLinks.isSome

/-- The accessor `(*PullRequest).GetTitle`. -/
def PullRequest.GetTitle : Option PullRequest → String
  | some p => p.Title.getD ""
  | none => ""

/-- The accessor `(*PullRequest).GetHTMLURL`. -/
def PullRequest.GetHTMLURL : Option PullRequest → String
  | some p => p.HTMLURL.getD ""
  | none => ""

/-- The accessor `(*PullRequest).GetMerged`: `false` on a nil receiver or nil field. -/
def PullRequest.GetMerged : Option PullRequest → Bool
  | some p => p.Merged.getD false
  | none => false

/-- The accessors `GetAction` of `IssuesEvent` and `PullRequestEvent`, on the `Action` field. -/
def GetAction (action : Option String) : String :=
  action.getD ""

/-! ## `strings.Contains` -/

/-- Whether `p` is a prefix of `l`. -/
def startsWith : List Char → List Char → Bool
  | _, [] => true
  | [], _ :: _ => false
  | c :: cs, p :: ps => c == p && startsWith cs ps

/-- Whether `sub` occurs in `l` as a contiguous block. -/
def containsChars : List Char → List Char → Bool
  | [], sub => startsWith [] sub
  | c :: cs, sub => startsWith (c :: cs) sub || containsChars cs sub

/-- The library function `strings.Contains(s, substr)`. -/
def strings.Contains (s substr : String) : Bool :=
  containsChars s.data substr.data

/-! ## Titles (`main.go`, lines 254-260) -/

/-- The function `prTitle`: `fmt.Sprintf("[%s](%s)", pr.GetTitle(), pr.GetHTMLURL())`. -/
def prTitle (pr : Option PullRequest) : String :=
  "[" ++ PullRequest.GetTitle pr ++ "](" ++ PullRequest.GetHTMLURL pr ++ ")"

/-- The function `issueTitle`: `fmt.Sprintf("[%s](%s)", issue.GetTitle(), issue.GetHTMLURL())`. -/
def issueTitle (issue : Option Issue) : String :=
  "[" ++ Issue.GetTitle issue ++ "](" ++ Issue.GetHTMLURL issue ++ ")"

/-! ## `eventSets` (`main.go`, lines 113-120) -/

/-- The struct `eventSets`: six `map[string]bool` used as sets of titles. -/
structure EventSets where
  merged : Finset String
  abandoned : Finset String
  underReview : Finset String
  inProgress : Finset String
  reviewed : Finset String
  issues : Finset String
deriving DecidableEq

/-- The six freshly made maps of `organizeEvents` (lines 131-138). -/
def EventSets.empty : EventSets :=
  { merged := ∅, abandoned := ∅, underReview := ∅, inProgress := ∅, reviewed := ∅, issues := ∅ }

/-- How a run of `organizeEvents` can end without returning. -/
inductive Abort where
  | fatal
  | nilDereference
deriving DecidableEq, Repr

/-! ## `cleanUp` (`main.go`, lines 212-225) -/

/-- Body of the first two loops of `cleanUp`:
`delete(e.underReview, pr); delete(e.inProgress, pr)`. -/
def dropTransitional (e : EventSets) (pr : String) : EventSets :=
  { e with underReview := e.underReview.erase pr, inProgress := e.inProgress.erase pr }

/-- Body of the third loop of `cleanUp`: `delete(e.inProgress, pr)`. -/
def dropInProgress (e : EventSets) (pr : String) : EventSets :=
  { e with inProgress := e.inProgress.erase pr }

instance dropTransitional_comm : RightCommutative dropTransitional :=
  ⟨fun e a b => by
    simp only [dropTransitional, Finset.erase_right_comm]⟩

instance dropInProgress_comm : RightCommutative dropInProgress :=
  ⟨fun e a b => by
    simp only [dropInProgress, Finset.erase_right_comm]⟩

/-- The method `cleanUp`: three `range` loops, each over the keys of a map that its body does
not modify, run one after the other on the same struct. -/
def EventSets.cleanUp (e : EventSets) : EventSets :=
  let e1 := Multiset.foldl dropTransitional e e.merged.val
  let e2 := Multiset.foldl dropTransitional e1 e1.abandoned.val
  Multiset.foldl dropInProgress e2 e2.underReview.val

/-! ## `organizeEvents` (`main.go`, lines 122-210) -/

/-- The first loop of `organizeEvents` (lines 124-130): decode every payload, `log.Fatalf` on
the first one whose decoding returns an error. -/
def parseAll : List Event → Except Abort (List Payload)
  | [] => .ok []
  | event :: rest =>
    match event.ParsePayload with
    | none => .error .fatal
    | some p =>
      match parseAll rest with
      | .error a => .error a
      | .ok parsed => .ok (p :: parsed)

/-- One pass through the type switch of lines 140-206 for a decoded payload. -/
def classify (user : String) (s : EventSets) : Payload → Except Abort EventSets
  | .CommitCommentEvent => .ok s
  | .CreateEvent none => .error .nilDereference
  | .CreateEvent (some refType) =>
    if refType = "branch" then .ok s
    else if refType = "tag" then .ok s
    else .ok s
  | .IssueCommentEvent none _ => .error .nilDereference
  | .IssueCommentEvent (some issue) _ =>
    if issue.IsPullRequest then
      if User.GetLogin issue.User = user then
        .ok { s with underReview := insert (issueTitle (some issue)) s.underReview }
      else
        .ok { s with reviewed := insert (issueTitle (some issue)) s.reviewed }
    else
      .ok { s with issues := insert (issueTitle (some issue)) s.issues }
  | .IssuesEvent _ none => .error .nilDereference
  | .IssuesEvent _ (some issue) =>
    if issue.IsPullRequest then
      .ok { s with reviewed := insert (issueTitle (some issue)) s.reviewed }
    else
      .ok { s with issues := insert (issueTitle (some issue)) s.issues }
  | .PullRequestEvent action pr =>
    if GetAction action = "opened" then
      if strings.Contains (PullRequest.GetTitle pr) "WIP" then
        .ok { s with inProgress := insert (prTitle pr) s.inProgress }
      else
        .ok { s with underReview := insert (prTitle pr) s.underReview }
    else if GetAction action = "edited" then
      .ok { s with inProgress := insert (prTitle pr) s.inProgress }
    else if GetAction action = "closed" then
      if PullRequest.GetMerged pr then
        .ok { s with merged := insert (prTitle pr) s.merged }
      else
        .ok { s with abandoned := insert (prTitle pr) s.abandoned }
    else if GetAction action = "reopened" then
      .ok { s with inProgress := insert (prTitle pr) s.inProgress }
    else
      .ok s
  | .PullRequestReviewCommentEvent none _ => .error .nilDereference
  | .PullRequestReviewCommentEvent (some pr) _ =>
    if User.GetLogin pr.User = user then
      .ok { s with underReview := insert (prTitle (some pr)) s.underReview }
    else
      .ok { s with reviewed := insert (prTitle (some pr)) s.reviewed }
  | .PushEvent => .ok s
  | .Other => .ok s

/-- The second loop of `organizeEvents` (lines 139-207), started from the sets `s`. -/
def classifyAll (user : String) (s : EventSets) : List Payload → Except Abort EventSets
  | [] => .ok s
  | event :: rest =>
    match classify user s event with
    | .error a => .error a
    | .ok s1 => classifyAll user s1 rest

/-- The function `organizeEvents`: decode, classify, `cleanUp`, return. -/
def organizeEvents (user : String) (events : List Event) : Except Abort EventSets :=
  match parseAll events with
  | .error a => .error a
  | .ok parsed =>
    match classifyAll user EventSets.empty parsed with
    | .error a => .error a
    | .ok eventSets => .ok eventSets.cleanUp

/-! ## Sample payloads -/

/-- A decoded event, with no timestamp. -/
def decoded (p : Payload) : Event :=
  { CreatedAt := none, ParsePayload := some p }

/-- The pull request "Fix bug" at "url", as an `opened` event carries it. -/
def prFixBug : PullRequest :=
  { Title := some "Fix bug", HTMLURL := some "url", User := none, Merged := none }

/-- The same pull request once merged. -/
def prFixBugMerged : PullRequest :=
  { Title := some "Fix bug", HTMLURL := some "url", User := none, Merged := some true }

/-- The same pull request closed without a merge. -/
def prFixBugClosed : PullRequest :=
  { Title := some "Fix bug", HTMLURL := some "url", User := none, Merged := some false }

/-- The pull request "Add feature" at "url2", written by `author`. -/
def prAddFeature (author : String) : PullRequest :=
  { Title := some "Add feature", HTMLURL := some "url2", User := some ⟨some author⟩,
    Merged := none }

/-- An `opened` event followed by the `closed` event of the merge of the same pull request. -/
def openedThenMerged : List Event :=
  [decoded (.PullRequestEvent (some "opened") (some prFixBug)),
   decoded (.PullRequestEvent (some "closed") (some prFixBugMerged))]

/-! ## Predicates on decoded payloads -/

/-- The payload `p` is a pull-request event with action "closed" whose merged flag reads
`merged` and whose title is `t`. -/
def IsClose (merged : Bool) (t : String) (p : Payload) : Prop :=
  ∃ action pr, p = .PullRequestEvent action pr ∧ GetAction action = "closed" ∧
    PullRequest.GetMerged pr = merged ∧ prTitle pr = t

/-- The issue (or, with `links` set, the pull request seen as an issue) "Add feature" at
"url2", written by `author`. -/
def issueAddFeature (author : String) (links : Option PullRequestLinks) : Issue :=
  { Title := some "Add feature", HTMLURL := some "url2", User := some ⟨some author⟩,
    PullRequestLinks := links }

/-- A review comment on "Add feature", a pull request of `prAuthor`, written by
`commentAuthor`. -/
def reviewComment (prAuthor commentAuthor : String) : Payload :=
  .PullRequestReviewCommentEvent (some (prAddFeature prAuthor))
    (some { User := some ⟨some commentAuthor⟩ })

/-- The payload kinds that the type switch handles without touching the sets: comment on a
commit, create, push, and every type the switch does not list. -/
def isNoOpKind : Payload → Bool
  | .CommitCommentEvent => true
  | .CreateEvent _ => true
  | .PushEvent => true
  | .Other => true
  | _ => false

/-- Whether an event decodes to a payload of one of the kinds of `isNoOpKind`. -/
def Event.isNoOp (e : Event) : Bool :=
  match e.ParsePayload with
  | some p => isNoOpKind p
  | none => false

/-- The event list without the events that decode to a payload of a kind of `isNoOpKind`. -/
def dropNoOps (events : List Event) : List Event :=
  events.filter (fun e => !e.isNoOp)

/-- The five disjointness facts that `cleanUp` establishes. -/
def Reconciled (e : EventSets) : Prop :=
  e.merged ∩ e.underReview = ∅ ∧ e.merged ∩ e.inProgress = ∅ ∧
  e.abandoned ∩ e.underReview = ∅ ∧ e.abandoned ∩ e.inProgress = ∅ ∧
  e.underReview ∩ e.inProgress = ∅

/-- Fieldwise union of two `EventSets`. -/
def EventSets.union (a b : EventSets) : EventSets :=
  { merged := a.merged ∪ b.merged
    abandoned := a.abandoned ∪ b.abandoned
    underReview := a.underReview ∪ b.underReview
    inProgress := a.inProgress ∪ b.inProgress
    reviewed := a.reviewed ∪ b.reviewed
    issues := a.issues ∪ b.issues }

/-! ## `filterEventsForTime` (`main.go`, lines 101-111) -/

/-- The loop of `filterEventsForTime`, with `events` the slice built so far. An instant is a
count of nanoseconds; `t.After(u)` is `t > u` and `t.Before(u)` is `t < u`. The method call
on a nil `CreatedAt` aborts the run. -/
def filterLoop (startTime endTime : Int) (events : List Event) :
    List Event → Except Abort (List Event)
  | [] => .ok events
  | e :: rest =>
    match e.CreatedAt with
    | none => .error .nilDereference
    | some createdAt =>
      if createdAt > startTime ∧ createdAt < endTime then
        filterLoop startTime endTime (events ++ [e]) rest
      else
        filterLoop startTime endTime events rest

/-- The function `filterEventsForTime`, with the flag `*duration` as the parameter `duration`
(nanoseconds); `startTime.Add(*duration)` is the sum of the two. -/
def filterEventsForTime (duration : Int) (unfiltered : List Event) (startTime : Int) :
    Except Abort (List Event) :=
  let endTime := startTime + duration
  filterLoop startTime endTime [] unfiltered

/-- The window test in the words of the specification: the event has a creation instant
strictly between `start` and `start + duration`. -/
def inWindow (start duration : Int) (e : Event) : Bool :=
  match e.CreatedAt with
  | some t => decide (start < t) && decide (t < start + duration)
  | none => false

/-- An event created at instant `t`, with a push payload. -/
def pushAt (t : Int) : Event :=
  { CreatedAt := some t, ParsePayload := some .PushEvent }

/-- A pull request with the given title text and URL and nothing else. -/
def prOf (text url : String) : PullRequest :=
  { Title := some text, HTMLURL := some url, User := none, Merged := none }

/-! ## The report (`main.go`, lines 227-252) -/

/-- The elements of `elems`, with `sep` between consecutive ones. -/
def joinWith (sep : List Char) : List (List Char) → List Char
  | [] => []
  | [l] => l
  | l :: l2 :: ls => l ++ sep ++ joinWith sep (l2 :: ls)

/-- The library function `strings.Join(elems, sep)`. -/
def strings.Join (elems : List String) (sep : String) : String :=
  ⟨joinWith sep.data (elems.map String.data)⟩

/-- Left-to-right replacement of the non-overlapping occurrences of a non-empty `old` by
`new`; the counter says how many characters of an occurrence already replaced are still to
be skipped. -/
def replaceFrom (old new : List Char) : Nat → List Char → List Char
  | _, [] => []
  | skip + 1, _ :: cs => replaceFrom old new skip cs
  | 0, c :: cs =>
    if startsWith (c :: cs) old then new ++ replaceFrom old new (old.length - 1) cs
    else c :: replaceFrom old new 0 cs

/-- The library call `strings.Replace(s, old, new, -1)`, for a non-empty `old`. -/
def strings.ReplaceAll (s old new : String) : String :=
  ⟨replaceFrom old.data new.data 0 s.data⟩

/-- The order in which each of the six `range` loops over a map visits its keys. The
language leaves it open; a run fixes one. -/
structure RangeOrder where
  merged : List String
  abandoned : List String
  underReview : List String
  inProgress : List String
  reviewed : List String
  issues : List String

/-- The list `keys` is a possible visiting order of the map with key set `s`: every key once. -/
def IsRange (s : Finset String) (keys : List String) : Prop :=
  keys.Nodup ∧ keys.toFinset = s

/-- The six orders are visiting orders of the six maps of `e`. -/
def RangeOrder.Visits (o : RangeOrder) (e : EventSets) : Prop :=
  IsRange e.merged o.merged ∧ IsRange e.abandoned o.abandoned ∧
  IsRange e.underReview o.underReview ∧ IsRange e.inProgress o.inProgress ∧
  IsRange e.reviewed o.reviewed ∧ IsRange e.issues o.issues

/-- The function `printSection`; `range` is the order in which the loop visits `sect`. -/
def printSection (sect : Finset String) (range : List String) (title : String) :
    List String :=
  if sect.card > 0 then
    ("\t* " ++ title) :: range.map (fun pr => "\t\t* " ++ pr)
  else
    []

/-- The method `markdown`. -/
def EventSets.markdown (e : EventSets) (o : RangeOrder) : String :=
  let md := ["* GitHub"]
    ++ printSection e.merged o.merged "Merged"
    ++ printSection e.abandoned o.abandoned "Abandoned"
    ++ printSection e.underReview o.underReview "Under Review"
    ++ printSection e.inProgress o.inProgress "In Progress"
    ++ printSection e.reviewed o.reviewed "Reviewed"
    ++ printSection e.issues o.issues "Issues"
  let markdown := strings.Join md "\n"
  strings.ReplaceAll markdown "\t" "    "

/-- The pieces of `l` between the occurrences of `sep`. -/
def splitOnChar (sep : Char) : List Char → List (List Char)
  | [] => [[]]
  | c :: cs =>
    if c = sep then [] :: splitOnChar sep cs
    else
      match splitOnChar sep cs with
      | [] => [[c]]
      | l :: ls => (c :: l) :: ls

/-- The lines of a text: its pieces between the newline characters. -/
def lines (s : String) : List String :=
  (splitOnChar '\n' s.data).map String.mk

/-- The lines of one section as the specification words them, once tabs are written as
four spaces: nothing for no member, else the section line and one line per member. -/
def reportSection (members : List String) (title : String) : List String :=
  if members = [] then []
  else ("    * " ++ title) :: members.map (fun t => "        * " ++ strings.ReplaceAll t "\t" "    ")

/-- No visiting order matters for an empty map; the order with six empty lists. -/
def RangeOrder.nil : RangeOrder :=
  { merged := [], abandoned := [], underReview := [], inProgress := [], reviewed := [],
    issues := [] }

/-- All the titles held by the six sets. -/
def EventSets.titles (e : EventSets) : Finset String :=
  e.merged ∪ e.abandoned ∪ e.underReview ∪ e.inProgress ∪ e.reviewed ∪ e.issues

/-- An `EventSets` whose only title, in merged, has a tab in its text. -/
def tabbedSets : EventSets :=
  { EventSets.empty with merged := {"[a\tb](u)"} }

/-- An `EventSets` with one merged pull request and one issue. -/
def mergedAndIssue : EventSets :=
  { EventSets.empty with merged := {"[Fix bug](url)"}, issues := {"[Add feature](url2)"} }

/-- The outcome of closing "Fix bug" once without and once with a merge. -/
def mergedAndAbandoned : EventSets :=
  { EventSets.empty with merged := {"[Fix bug](url)"}, abandoned := {"[Fix bug](url)"} }

/-- The decoded payloads on which the type switch dereferences a nil pointer: a create event
without ref type (line 145), an issue comment or issues event without issue (lines 151 and
168), a review comment without pull request (line 197). -/
def derefsNil : Payload → Bool
  | .CreateEvent none => true
  | .IssueCommentEvent none _ => true
  | .IssuesEvent _ none => true
  | .PullRequestReviewCommentEvent none _ => true
  | _ => false

/-! ## `lastCompletedWeekMonday` (`main.go`, lines 28-49) -/

/-- The library method `Weekday` on a date given as its number of days since 1970-01-01, a
Thursday: Sunday is 0, Monday is 1, up to Saturday, 6. -/
def Weekday (day : Int) : Int :=
  (day + 4) % 7

/-- The library method `AddDate(0, 0, days)` on a midnight in UTC, as a day number. -/
def AddDate (day days : Int) : Int :=
  day + days

/-- The function `lastCompletedWeekMonday`, with the date of `time.Now()` as the day number
`today`; the result is the day number of the midnight returned, and `.fatal` stands for the
`log.Fatal` after the switch. -/
def lastCompletedWeekMonday (today : Int) : Except Abort Int :=
  if Weekday today = 1 then .ok (AddDate today (-7))
  else if Weekday today = 2 then .ok (AddDate today (-8))
  else if Weekday today = 3 then .ok (AddDate today (-9))
  else if Weekday today = 4 then .ok (AddDate today (-10))
  else if Weekday today = 5 then .ok (AddDate today (-11))
  else if Weekday today = 6 then .ok (AddDate today (-12))
  else if Weekday today = 0 then .ok (AddDate today (-13))
  else .error .fatal

/-- A URL, as the `html_url` of an issue or pull request is: a string in which "](" does not
occur. In a URL the character "]" only closes an IP literal in the host, where ":", "/",
"?", "#" or the end follows it; this is the one property of URLs that the titles rely on. -/
structure URL where
  val : String
  noSeparator : strings.Contains val "](" = false

/-! ## Lemmas on `cleanUp` -/

theorem foldl_dropTransitional (m : Multiset String) (e : EventSets) :
    Multiset.foldl dropTransitional e m =
      { e with underReview := e.underReview \ m.toFinset,
               inProgress := e.inProgress \ m.toFinset } := by
  induction m using Multiset.induction_on generalizing e with
  | empty => simp
  | cons a m ih =>
    rw [Multiset.foldl_cons, ih]
    simp only [dropTransitional, Multiset.toFinset_cons]
    congr 1 <;> (ext x; simp only [Finset.mem_sdiff, Finset.mem_erase, Finset.mem_insert]; tauto)

theorem foldl_dropInProgress (m : Multiset String) (e : EventSets) :
    Multiset.foldl dropInProgress e m =
      { e with inProgress := e.inProgress \ m.toFinset } := by
  induction m using Multiset.induction_on generalizing e with
  | empty => simp
  | cons a m ih =>
    rw [Multiset.foldl_cons, ih]
    simp only [dropInProgress, Multiset.toFinset_cons]
    congr 1
    ext x
    simp only [Finset.mem_sdiff, Finset.mem_erase, Finset.mem_insert]
    tauto

/-- Closed form of `cleanUp`: the three loops as set differences. -/
theorem cleanUp_eq (e : EventSets) :
    e.cleanUp =
      { merged := e.merged
        abandoned := e.abandoned
        underReview := e.underReview \ (e.merged ∪ e.abandoned)
        inProgress :=
          e.inProgress \ (e.merged ∪ e.abandoned ∪ (e.underReview \ (e.merged ∪ e.abandoned)))
        reviewed := e.reviewed
        issues := e.issues } := by
  simp only [EventSets.cleanUp, foldl_dropTransitional, foldl_dropInProgress, Finset.val_toFinset]
  congr 1 <;>
    (ext x; simp only [Finset.mem_sdiff, Finset.mem_union]; tauto)

theorem cleanUp_reconciled (e : EventSets) : Reconciled e.cleanUp := by
  rw [cleanUp_eq]
  refine ⟨?_, ?_, ?_, ?_, ?_⟩ <;>
    (ext x; simp only [Finset.mem_inter, Finset.mem_sdiff, Finset.mem_union,
      Finset.not_mem_empty, iff_false]; tauto)

theorem organizeEvents_ok {user : String} {events : List Event} {r : EventSets}
    (h : organizeEvents user events = .ok r) :
    ∃ parsed s, parseAll events = .ok parsed ∧
      classifyAll user EventSets.empty parsed = .ok s ∧ r = s.cleanUp := by
  unfold organizeEvents at h
  split at h
  · cases h
  · next parsed hp =>
    split at h
    · cases h
    · next s hc =>
      injection h with h
      exact ⟨parsed, s, hp, hc, h.symm⟩

/-! ## Reconciliation -/

/-- C1: for every `EventSets` value, after `cleanUp` the intersections merged ∩ underReview,
merged ∩ inProgress, abandoned ∩ underReview, abandoned ∩ inProgress and
underReview ∩ inProgress are empty; hence the same holds for every `EventSets` that
`organizeEvents` returns. -/
theorem cleanUp_disjoint :
    (∀ e : EventSets,
      e.cleanUp.merged ∩ e.cleanUp.underReview = ∅ ∧
      e.cleanUp.merged ∩ e.cleanUp.inProgress = ∅ ∧
      e.cleanUp.abandoned ∩ e.cleanUp.underReview = ∅ ∧
      e.cleanUp.abandoned ∩ e.cleanUp.inProgress = ∅ ∧
      e.cleanUp.underReview ∩ e.cleanUp.inProgress = ∅) ∧
    (∀ (user : String) (events : List Event) (r : EventSets),
      organizeEvents user events = .ok r →
        r.merged ∩ r.underReview = ∅ ∧ r.merged ∩ r.inProgress = ∅ ∧
        r.abandoned ∩ r.underReview = ∅ ∧ r.abandoned ∩ r.inProgress = ∅ ∧
        r.underReview ∩ r.inProgress = ∅) := by
  refine ⟨fun e => cleanUp_reconciled e, ?_⟩
  intro user events r h
  obtain ⟨parsed, s, -, -, rfl⟩ := organizeEvents_ok h
  exact cleanUp_reconciled s

/-- Instance of C1 on the run "opened, then merged" of one pull request. -/
theorem cleanUp_disjoint_witness :
    organizeEvents "Harwayne" openedThenMerged =
        .ok { EventSets.empty with merged := {"[Fix bug](url)"} } ∧
      ({"[Fix bug](url)"} : Finset String) ∩ (∅ : Finset String) = ∅ :=
  ⟨rfl, (cleanUp_disjoint.2 "Harwayne" openedThenMerged
    { EventSets.empty with merged := {"[Fix bug](url)"} } rfl).1⟩

/-- C2: `cleanUp` leaves merged, abandoned, reviewed and issues as they were, sets underReview
to underReview minus (merged ∪ abandoned), and sets inProgress to inProgress minus
(merged ∪ abandoned ∪ the new underReview); no set gains a member. -/
theorem cleanUp_spec (s : EventSets) :
    s.cleanUp.merged = s.merged ∧ s.cleanUp.abandoned = s.abandoned ∧
    s.cleanUp.reviewed = s.reviewed ∧ s.cleanUp.issues = s.issues ∧
    s.cleanUp.underReview = s.underReview \ (s.merged ∪ s.abandoned) ∧
    s.cleanUp.inProgress = s.inProgress \ (s.merged ∪ s.abandoned ∪ s.cleanUp.underReview) ∧
    s.cleanUp.underReview ⊆ s.underReview ∧ s.cleanUp.inProgress ⊆ s.inProgress := by
  rw [cleanUp_eq]
  exact ⟨rfl, rfl, rfl, rfl, rfl, rfl, Finset.sdiff_subset, Finset.sdiff_subset⟩

/-! ## The terminal sets -/

theorem classify_terminal {user : String} {s s' : EventSets} {p : Payload}
    (h : classify user s p = .ok s') (t : String) :
    (t ∈ s'.merged ↔ t ∈ s.merged ∨ IsClose true t p) ∧
    (t ∈ s'.abandoned ↔ t ∈ s.abandoned ∨ IsClose false t p) := by
  unfold classify at h
  split at h <;> (try split at h) <;> (try split at h) <;> (try split at h) <;> (try split at h)
    <;> (try cases h) <;> simp_all [IsClose] <;> aesop

theorem classifyAll_terminal {user : String} (ps : List Payload) :
    ∀ {s s' : EventSets}, classifyAll user s ps = .ok s' → ∀ t : String,
      (t ∈ s'.merged ↔ t ∈ s.merged ∨ ∃ p ∈ ps, IsClose true t p) ∧
      (t ∈ s'.abandoned ↔ t ∈ s.abandoned ∨ ∃ p ∈ ps, IsClose false t p) := by
  induction ps with
  | nil =>
    intro s s' h t
    simp only [classifyAll] at h
    cases h
    simp
  | cons p ps ih =>
    intro s s' h t
    simp only [classifyAll] at h
    split at h
    · cases h
    · next s1 h1 =>
      have hstep := classify_terminal h1 t
      have hrest := ih h t
      rw [hrest.1, hrest.2, hstep.1, hstep.2]
      simp only [List.mem_cons, exists_eq_or_imp]
      exact ⟨or_assoc, or_assoc⟩

theorem parseAll_mem {events : List Event} :
    ∀ {parsed : List Payload}, parseAll events = .ok parsed →
      ∀ p, p ∈ parsed ↔ ∃ e ∈ events, e.ParsePayload = some p := by
  induction events with
  | nil =>
    intro parsed h p
    simp only [parseAll] at h
    cases h
    simp
  | cons e es ih =>
    intro parsed h p
    simp only [parseAll] at h
    split at h
    · cases h
    · next q hq =>
      split at h
      · cases h
      · next rest hrest =>
        cases h
        simp only [List.mem_cons, exists_eq_or_imp, ih hrest p, hq, Option.some.injEq]
        constructor
        · rintro (h | h)
          · exact Or.inl h.symm
          · exact Or.inr h
        · rintro (h | h)
          · exact Or.inl h.symm
          · exact Or.inr h

/-- Membership in the two terminal sets of a returned `EventSets`, over the decoded payloads. -/
theorem organizeEvents_terminal_mem {user : String} {events : List Event} {r : EventSets}
    (h : organizeEvents user events = .ok r) (m : Bool) (t : String) :
    (t ∈ (if m then r.merged else r.abandoned)) ↔
      ∃ e ∈ events, ∃ p, e.ParsePayload = some p ∧ IsClose m t p := by
  obtain ⟨parsed, s, hp, hc, rfl⟩ := organizeEvents_ok h
  have hs := classifyAll_terminal parsed hc t
  have hmem := parseAll_mem hp
  have hex : ∀ b, (∃ p ∈ parsed, IsClose b t p) ↔
      ∃ e ∈ events, ∃ p, e.ParsePayload = some p ∧ IsClose b t p := by
    intro b
    constructor
    · rintro ⟨p, hp1, hp2⟩
      obtain ⟨e, he, hep⟩ := (hmem p).1 hp1
      exact ⟨e, he, p, hep, hp2⟩
    · rintro ⟨e, he, p, hep, hp2⟩
      exact ⟨p, (hmem p).2 ⟨e, he, hep⟩, hp2⟩
  rw [cleanUp_eq]
  cases m
  · simpa [EventSets.empty, hex] using hs.2
  · simpa [EventSets.empty, hex] using hs.1

/-- C3: for every event list on which `organizeEvents` returns, a title is in `merged` iff the
list has a pull-request event with action "closed" and merged = true with that title, and in
`abandoned` iff it has one with action "closed" and merged = false with that title. -/
theorem organizeEvents_merged_abandoned (user : String) (events : List Event) (r : EventSets)
    (h : organizeEvents user events = .ok r) (t : String) :
    (t ∈ r.merged ↔ ∃ e ∈ events, ∃ action pr,
        e.ParsePayload = some (.PullRequestEvent action pr) ∧ GetAction action = "closed" ∧
        PullRequest.GetMerged pr = true ∧ prTitle pr = t) ∧
    (t ∈ r.abandoned ↔ ∃ e ∈ events, ∃ action pr,
        e.ParsePayload = some (.PullRequestEvent action pr) ∧ GetAction action = "closed" ∧
        PullRequest.GetMerged pr = false ∧ prTitle pr = t) := by
  have h1 := organizeEvents_terminal_mem h true t
  have h2 := organizeEvents_terminal_mem h false t
  simp only [if_true, Bool.false_eq_true, if_false, IsClose] at h1 h2
  constructor
  · rw [h1]
    constructor
    · rintro ⟨e, he, p, hp, a, pr, rfl, h3⟩
      exact ⟨e, he, a, pr, hp, h3⟩
    · rintro ⟨e, he, a, pr, hp, h3⟩
      exact ⟨e, he, _, hp, a, pr, rfl, h3⟩
  · rw [h2]
    constructor
    · rintro ⟨e, he, p, hp, a, pr, rfl, h3⟩
      exact ⟨e, he, a, pr, hp, h3⟩
    · rintro ⟨e, he, a, pr, hp, h3⟩
      exact ⟨e, he, _, hp, a, pr, rfl, h3⟩

/-- Instance of C3 on the run "opened, then merged". -/
theorem organizeEvents_merged_abandoned_witness :
    organizeEvents "Harwayne" openedThenMerged =
        .ok { EventSets.empty with merged := {"[Fix bug](url)"} } ∧
      ("[Fix bug](url)" ∈ ({"[Fix bug](url)"} : Finset String) ↔
        ∃ e ∈ openedThenMerged, ∃ action pr,
          e.ParsePayload = some (.PullRequestEvent action pr) ∧ GetAction action = "closed" ∧
          PullRequest.GetMerged pr = true ∧ prTitle pr = "[Fix bug](url)") :=
  ⟨rfl, (organizeEvents_merged_abandoned "Harwayne" openedThenMerged
    { EventSets.empty with merged := {"[Fix bug](url)"} } rfl "[Fix bug](url)").1⟩

/-! ## Runs on a single event -/

theorem startsWith_iff (l p : List Char) : startsWith l p = true ↔ p <+: l := by
  induction p generalizing l with
  | nil => simp [startsWith]
  | cons a p ih =>
    cases l with
    | nil => simp [startsWith]
    | cons c cs =>
      simp only [startsWith, Bool.and_eq_true, beq_iff_eq, ih, List.cons_prefix_cons]
      constructor
      · rintro ⟨rfl, h⟩; exact ⟨rfl, h⟩
      · rintro ⟨rfl, h⟩; exact ⟨rfl, h⟩

theorem containsChars_iff (l sub : List Char) : containsChars l sub = true ↔ sub <:+: l := by
  induction l with
  | nil => simp [containsChars, startsWith_iff]
  | cons c cs ih =>
    simp only [containsChars, Bool.or_eq_true, startsWith_iff, ih, List.infix_cons_iff]

theorem strings_Contains_iff (s substr : String) :
    strings.Contains s substr = true ↔ ∃ a b : String, s = a ++ substr ++ b := by
  unfold strings.Contains
  rw [containsChars_iff]
  constructor
  · rintro ⟨a, b, h⟩
    refine ⟨⟨a⟩, ⟨b⟩, ?_⟩
    apply String.ext
    simp [String.data_append, h]
  · rintro ⟨a, b, rfl⟩
    exact ⟨a.data, b.data, by simp [String.data_append]⟩

theorem organizeEvents_single (user : String) (e : Event) (p : Payload)
    (hp : e.ParsePayload = some p) :
    organizeEvents user [e] =
      match classify user EventSets.empty p with
      | .error a => .error a
      | .ok s => .ok s.cleanUp := by
  simp only [organizeEvents, parseAll, hp, classifyAll]
  cases classify user EventSets.empty p <;> rfl



/-- C4: on a single pull-request event with action "opened", `organizeEvents` returns
inProgress = {title} and five empty sets when the title text contains "WIP", and
underReview = {title} and five empty sets otherwise. -/
theorem organizeEvents_opened (user : String) (e : Event) (action : Option String)
    (pr : Option PullRequest)
    (hp : e.ParsePayload = some (.PullRequestEvent action pr))
    (ha : GetAction action = "opened") :
    ((∃ a b : String, PullRequest.GetTitle pr = a ++ "WIP" ++ b) →
      organizeEvents user [e] = .ok { EventSets.empty with inProgress := {prTitle pr} }) ∧
    ((¬ ∃ a b : String, PullRequest.GetTitle pr = a ++ "WIP" ++ b) →
      organizeEvents user [e] = .ok { EventSets.empty with underReview := {prTitle pr} }) := by
  rw [organizeEvents_single user e _ hp, ← strings_Contains_iff]
  simp only [classify, ha, if_true]
  constructor
  · intro h
    simp [h, cleanUp_eq, EventSets.empty]
  · intro h
    simp [h, cleanUp_eq, EventSets.empty]

/-- Instance of C4: title "Fix bug" at "url" lands in underReview as "[Fix bug](url)". -/
theorem organizeEvents_opened_witness :
    organizeEvents "Harwayne" [decoded (.PullRequestEvent (some "opened") (some prFixBug))] =
      .ok { EventSets.empty with underReview := {"[Fix bug](url)"} } :=
  (organizeEvents_opened "Harwayne"
    (decoded (.PullRequestEvent (some "opened") (some prFixBug))) (some "opened")
    (some prFixBug) rfl rfl).2
    (fun h => absurd ((strings_Contains_iff "Fix bug" "WIP").2 h) (by decide))

/-- C5: on a single issue-comment event, a pull request written by the tracked user gives
underReview = {title}, a pull request written by someone else gives reviewed = {title}, and a
plain issue gives issues = {title} whoever wrote it; the other five sets are empty. -/
theorem organizeEvents_issueComment (user : String) (e : Event) (issue : Issue)
    (comment : Option IssueComment)
    (hp : e.ParsePayload = some (.IssueCommentEvent (some issue) comment)) :
    (issue.IsPullRequest = true → User.GetLogin issue.User = user →
      organizeEvents user [e] =
        .ok { EventSets.empty with underReview := {issueTitle (some issue)} }) ∧
    (issue.IsPullRequest = true → User.GetLogin issue.User ≠ user →
      organizeEvents user [e] =
        .ok { EventSets.empty with reviewed := {issueTitle (some issue)} }) ∧
    (issue.IsPullRequest = false →
      organizeEvents user [e] =
        .ok { EventSets.empty with issues := {issueTitle (some issue)} }) := by
  rw [organizeEvents_single user e _ hp]
  simp only [classify]
  refine ⟨fun h1 h2 => ?_, fun h1 h2 => ?_, fun h1 => ?_⟩
  · simp [h1, h2, cleanUp_eq, EventSets.empty]
  · simp [h1, h2, cleanUp_eq, EventSets.empty]
  · simp [h1, cleanUp_eq, EventSets.empty]

/-- Instance of C5: a comment on a pull request of the tracked user. -/
theorem organizeEvents_issueComment_witness :
    organizeEvents "Harwayne"
        [decoded (.IssueCommentEvent (some (issueAddFeature "Harwayne" (some ⟨none⟩))) none)] =
      .ok { EventSets.empty with underReview := {"[Add feature](url2)"} } :=
  (organizeEvents_issueComment "Harwayne"
    (decoded (.IssueCommentEvent (some (issueAddFeature "Harwayne" (some ⟨none⟩))) none))
    (issueAddFeature "Harwayne" (some ⟨none⟩)) none rfl).1 rfl rfl

/-- C6, as stated, fails: a review comment written by the tracked user on a pull request of
someone else is filed under reviewed, not under underReview. -/
theorem organizeEvents_reviewComment_counterexample :
    organizeEvents "Harwayne" [decoded (reviewComment "octocat" "Harwayne")] =
        .ok { EventSets.empty with reviewed := {"[Add feature](url2)"} } ∧
      organizeEvents "Harwayne" [decoded (reviewComment "octocat" "Harwayne")] ≠
        .ok { EventSets.empty with underReview := {"[Add feature](url2)"} } := by
  refine ⟨rfl, ?_⟩
  intro h
  have h2 : organizeEvents "Harwayne" [decoded (reviewComment "octocat" "Harwayne")] =
      .ok { EventSets.empty with reviewed := {"[Add feature](url2)"} } := rfl
  rw [h2] at h
  injection h with h
  have h3 := congrArg EventSets.underReview h
  exact Finset.singleton_ne_empty _ h3.symm

/-- C6, amended: on a single pull-request-review-comment event, a pull request written by the
tracked user gives underReview = {title} and a pull request written by someone else gives
reviewed = {title}, whoever wrote the comment; the other five sets are empty. -/
theorem organizeEvents_reviewComment (user : String) (e : Event) (pr : PullRequest)
    (comment : Option PullRequestComment)
    (hp : e.ParsePayload = some (.PullRequestReviewCommentEvent (some pr) comment)) :
    (User.GetLogin pr.User = user →
      organizeEvents user [e] =
        .ok { EventSets.empty with underReview := {prTitle (some pr)} }) ∧
    (User.GetLogin pr.User ≠ user →
      organizeEvents user [e] =
        .ok { EventSets.empty with reviewed := {prTitle (some pr)} }) := by
  rw [organizeEvents_single user e _ hp]
  simp only [classify]
  refine ⟨fun h1 => ?_, fun h1 => ?_⟩ <;>
    simp [h1, cleanUp_eq, EventSets.empty]

/-- Instance of amended C6: a review comment by someone else on the tracked user's pull
request. -/
theorem organizeEvents_reviewComment_witness :
    organizeEvents "Harwayne" [decoded (reviewComment "Harwayne" "octocat")] =
      .ok { EventSets.empty with underReview := {"[Add feature](url2)"} } :=
  (organizeEvents_reviewComment "Harwayne" (decoded (reviewComment "Harwayne" "octocat"))
    (prAddFeature "Harwayne") (some { User := some ⟨some "octocat"⟩ }) rfl).1 rfl

/-- C7: on a single issue-state-change event, whatever the action verb, a pull request gives
reviewed = {title} and a plain issue gives issues = {title}; the other five sets are empty. -/
theorem organizeEvents_issuesEvent (user : String) (e : Event) (action : Option String)
    (issue : Issue)
    (hp : e.ParsePayload = some (.IssuesEvent action (some issue))) :
    (issue.IsPullRequest = true →
      organizeEvents user [e] =
        .ok { EventSets.empty with reviewed := {issueTitle (some issue)} }) ∧
    (issue.IsPullRequest = false →
      organizeEvents user [e] =
        .ok { EventSets.empty with issues := {issueTitle (some issue)} }) := by
  rw [organizeEvents_single user e _ hp]
  simp only [classify]
  refine ⟨fun h1 => ?_, fun h1 => ?_⟩
  · simp [h1, cleanUp_eq, EventSets.empty]
  · simp [h1, cleanUp_eq, EventSets.empty]

/-- Instance of C7: a plain issue that was closed. -/
theorem organizeEvents_issuesEvent_witness :
    organizeEvents "Harwayne"
        [decoded (.IssuesEvent (some "closed") (some (issueAddFeature "octocat" none)))] =
      .ok { EventSets.empty with issues := {"[Add feature](url2)"} } :=
  (organizeEvents_issuesEvent "Harwayne"
    (decoded (.IssuesEvent (some "closed") (some (issueAddFeature "octocat" none))))
    (some "closed") (issueAddFeature "octocat" none) rfl).2 rfl

/-- C8: on a single pull-request event, the actions "edited" and "reopened" give
inProgress = {title} and five empty sets, whatever the title text; an action outside
opened, edited, closed and reopened gives six empty sets, and the run returns. -/
theorem organizeEvents_edited_reopened_other (user : String) (e : Event)
    (action : Option String) (pr : Option PullRequest)
    (hp : e.ParsePayload = some (.PullRequestEvent action pr)) :
    (GetAction action = "edited" ∨ GetAction action = "reopened" →
      organizeEvents user [e] = .ok { EventSets.empty with inProgress := {prTitle pr} }) ∧
    (GetAction action ≠ "opened" ∧ GetAction action ≠ "edited" ∧
        GetAction action ≠ "closed" ∧ GetAction action ≠ "reopened" →
      organizeEvents user [e] = .ok EventSets.empty) := by
  rw [organizeEvents_single user e _ hp]
  simp only [classify]
  refine ⟨fun h => ?_, fun h => ?_⟩
  · rcases h with h | h
    · simp [h, cleanUp_eq, EventSets.empty]
    · simp [h, cleanUp_eq, EventSets.empty]
  · obtain ⟨h1, h2, h3, h4⟩ := h
    simp [h1, h2, h3, h4, cleanUp_eq, EventSets.empty]

/-- Instance of C8: an "edited" event of a pull request whose title has no "WIP", and a
"labeled" event. -/
theorem organizeEvents_edited_reopened_other_witness :
    organizeEvents "Harwayne" [decoded (.PullRequestEvent (some "edited") (some prFixBug))] =
        .ok { EventSets.empty with inProgress := {"[Fix bug](url)"} } ∧
      organizeEvents "Harwayne" [decoded (.PullRequestEvent (some "labeled") (some prFixBug))] =
        .ok EventSets.empty :=
  ⟨(organizeEvents_edited_reopened_other "Harwayne"
      (decoded (.PullRequestEvent (some "edited") (some prFixBug))) (some "edited")
      (some prFixBug) rfl).1 (Or.inl rfl),
   (organizeEvents_edited_reopened_other "Harwayne"
      (decoded (.PullRequestEvent (some "labeled") (some prFixBug))) (some "labeled")
      (some prFixBug) rfl).2 (by decide)⟩

/-! ## Events that are not classified -/

theorem classify_noOp (user : String) (s : EventSets) (p : Payload)
    (hk : isNoOpKind p = true) (hr : p ≠ .CreateEvent none) : classify user s p = .ok s := by
  cases p with
  | CreateEvent refType =>
    cases refType with
    | none => exact absurd rfl hr
    | some r => simp [classify]
  | CommitCommentEvent => rfl
  | PushEvent => rfl
  | Other => rfl
  | IssueCommentEvent _ _ => simp [isNoOpKind] at hk
  | IssuesEvent _ _ => simp [isNoOpKind] at hk
  | PullRequestEvent _ _ => simp [isNoOpKind] at hk
  | PullRequestReviewCommentEvent _ _ => simp [isNoOpKind] at hk

theorem classifyAll_filter (user : String) (ps : List Payload)
    (hr : ∀ p ∈ ps, p ≠ .CreateEvent none) (s : EventSets) :
    classifyAll user s (ps.filter (fun p => !isNoOpKind p)) = classifyAll user s ps := by
  induction ps generalizing s with
  | nil => rfl
  | cons p ps ih =>
    have hr2 : ∀ q ∈ ps, q ≠ .CreateEvent none := fun q hq => hr q (List.mem_cons_of_mem _ hq)
    cases hk : isNoOpKind p with
    | true =>
      rw [List.filter_cons_of_neg (by simp [hk]), ih hr2]
      simp only [classifyAll, classify_noOp user s p hk (hr p (List.mem_cons_self _ _))]
    | false =>
      rw [List.filter_cons_of_pos (by simp [hk])]
      simp only [classifyAll]
      cases classify user s p with
      | error a => rfl
      | ok s1 => exact ih hr2 s1

theorem parseAll_dropNoOps (events : List Event) :
    parseAll (dropNoOps events) =
      match parseAll events with
      | .error a => .error a
      | .ok ps => .ok (ps.filter (fun p => !isNoOpKind p)) := by
  induction events with
  | nil => rfl
  | cons e es ih =>
    unfold dropNoOps at ih ⊢
    cases hp : e.ParsePayload with
    | none =>
      rw [List.filter_cons_of_pos (by simp [Event.isNoOp, hp])]
      simp only [parseAll, hp]
    | some p =>
      cases hk : isNoOpKind p with
      | true =>
        rw [List.filter_cons_of_neg (by simp [Event.isNoOp, hp, hk]), ih]
        simp only [parseAll, hp]
        cases parseAll es with
        | error a => rfl
        | ok ps => simp [hk]
      | false =>
        rw [List.filter_cons_of_pos (by simp [Event.isNoOp, hp, hk])]
        simp only [parseAll, hp, ih]
        cases parseAll es with
        | error a => rfl
        | ok ps => simp [hk]

/-- Apart from a create event without a ref type, the events of the kinds of `isNoOpKind`
can be removed from the input without changing what `organizeEvents` does. -/
theorem organizeEvents_dropNoOps (user : String) (events : List Event)
    (hr : ∀ e ∈ events, e.ParsePayload ≠ some (.CreateEvent none)) :
    organizeEvents user (dropNoOps events) = organizeEvents user events := by
  unfold organizeEvents
  rw [parseAll_dropNoOps]
  cases hp : parseAll events with
  | error a => rfl
  | ok ps =>
    have hr2 : ∀ p ∈ ps, p ≠ .CreateEvent none := by
      intro p hmem heq
      obtain ⟨e, he, hpe⟩ := (parseAll_mem hp p).1 hmem
      exact hr e he (hpe.trans (congrArg some heq))
    simp only [classifyAll_filter user ps hr2]

/-- C9, the failing run: a create event whose ref type is missing stops `organizeEvents` on
the dereference `*e.RefType`, although without that event the run returns six empty sets. -/
theorem organizeEvents_create_without_refType (user : String) :
    organizeEvents user [decoded (.CreateEvent none)] = .error .nilDereference ∧
    dropNoOps [decoded (.CreateEvent none)] = [] ∧
    organizeEvents user [] = .ok EventSets.empty := by
  refine ⟨rfl, rfl, ?_⟩
  simp [organizeEvents, parseAll, classifyAll, cleanUp_eq, EventSets.empty]

/-! ## Terminal states dominate -/

/-- C10: whenever the event list has a pull-request event with action "closed" and
merged = true for title `t`, a returned `EventSets` has `t` in merged and in neither
underReview nor inProgress, whatever else the list holds; and the list "opened, then closed
and merged" of one pull request does return, with merged = {t} and five empty sets. -/
theorem organizeEvents_merged_dominates (user : String) :
    (∀ (events : List Event) (r : EventSets) (t : String),
      organizeEvents user events = .ok r →
      (∃ e ∈ events, ∃ action pr,
        e.ParsePayload = some (.PullRequestEvent action pr) ∧ GetAction action = "closed" ∧
        PullRequest.GetMerged pr = true ∧ prTitle pr = t) →
      t ∈ r.merged ∧ t ∉ r.underReview ∧ t ∉ r.inProgress) ∧
    (∀ (opened closed : Option PullRequest),
      prTitle opened = prTitle closed → PullRequest.GetMerged closed = true →
      organizeEvents user
          [decoded (.PullRequestEvent (some "opened") opened),
           decoded (.PullRequestEvent (some "closed") closed)] =
        .ok { EventSets.empty with merged := {prTitle closed} }) := by
  constructor
  · intro events r t h hex
    have hm : t ∈ r.merged := by
      have := (organizeEvents_terminal_mem h true t).2
      simp only [if_true] at this
      obtain ⟨e, he, a, pr, hp, h1, h2, h3⟩ := hex
      exact this ⟨e, he, _, hp, a, pr, rfl, h1, h2, h3⟩
    obtain ⟨parsed, s, -, -, rfl⟩ := organizeEvents_ok h
    obtain ⟨h1, h2, -, -, -⟩ := cleanUp_reconciled s
    refine ⟨hm, fun hu => ?_, fun hi => ?_⟩
    · have : t ∈ s.cleanUp.merged ∩ s.cleanUp.underReview := Finset.mem_inter.2 ⟨hm, hu⟩
      rw [h1] at this
      exact Finset.not_mem_empty _ this
    · have : t ∈ s.cleanUp.merged ∩ s.cleanUp.inProgress := Finset.mem_inter.2 ⟨hm, hi⟩
      rw [h2] at this
      exact Finset.not_mem_empty _ this
  · intro opened closed ht hmerged
    simp only [organizeEvents, parseAll, decoded, classifyAll, classify, GetAction,
      Option.getD_some, if_true, hmerged, ht]
    by_cases hw : strings.Contains (PullRequest.GetTitle opened) "WIP" = true
    · simp [hw, cleanUp_eq, EventSets.empty]
    · simp [hw, cleanUp_eq, EventSets.empty]

/-- Instance of C10 on "Fix bug": opened, then closed and merged. -/
theorem organizeEvents_merged_dominates_witness :
    organizeEvents "Harwayne" openedThenMerged =
        .ok { EventSets.empty with merged := {"[Fix bug](url)"} } ∧
      "[Fix bug](url)" ∈ ({"[Fix bug](url)"} : Finset String) ∧
      "[Fix bug](url)" ∉ (∅ : Finset String) ∧ "[Fix bug](url)" ∉ (∅ : Finset String) :=
  ⟨(organizeEvents_merged_dominates "Harwayne").2 (some prFixBug) (some prFixBugMerged) rfl rfl,
   (organizeEvents_merged_dominates "Harwayne").1 openedThenMerged
    { EventSets.empty with merged := {"[Fix bug](url)"} } "[Fix bug](url)" rfl
    ⟨decoded (.PullRequestEvent (some "closed") (some prFixBugMerged)),
      by simp [openedThenMerged], some "closed", some prFixBugMerged, rfl, rfl, rfl, rfl⟩⟩

/-! ## Order and repetition of events -/

theorem union_empty_insert (s : EventSets) :
    (∀ t, s.union { EventSets.empty with merged := insert t EventSets.empty.merged } =
      { s with merged := insert t s.merged }) ∧
    (∀ t, s.union { EventSets.empty with abandoned := insert t EventSets.empty.abandoned } =
      { s with abandoned := insert t s.abandoned }) ∧
    (∀ t, s.union { EventSets.empty with underReview := insert t EventSets.empty.underReview } =
      { s with underReview := insert t s.underReview }) ∧
    (∀ t, s.union { EventSets.empty with inProgress := insert t EventSets.empty.inProgress } =
      { s with inProgress := insert t s.inProgress }) ∧
    (∀ t, s.union { EventSets.empty with reviewed := insert t EventSets.empty.reviewed } =
      { s with reviewed := insert t s.reviewed }) ∧
    (∀ t, s.union { EventSets.empty with issues := insert t EventSets.empty.issues } =
      { s with issues := insert t s.issues }) ∧
    s.union EventSets.empty = s := by
  cases s
  simp [EventSets.union, EventSets.empty, Finset.insert_eq, Finset.union_comm]

theorem classify_union (user : String) (s : EventSets) (p : Payload) :
    classify user s p =
      match classify user EventSets.empty p with
      | .error _ => .error .nilDereference
      | .ok d => .ok (s.union d) := by
  obtain ⟨h1, h2, h3, h4, h5, h6, h7⟩ := union_empty_insert s
  rcases p with _ | r | ⟨i, c⟩ | ⟨a, i⟩ | ⟨a, pr⟩ | ⟨pr, c⟩ | _ | _
  · simp only [classify, h7]
  · cases r
    · simp only [classify]
    · simp only [classify, ite_self, h7]
  · cases i
    · simp only [classify]
    · simp only [classify]
      split_ifs <;> simp only [h3, h5, h6]
  · cases i
    · simp only [classify]
    · simp only [classify]
      split_ifs <;> simp only [h5, h6]
  · simp only [classify]
    split_ifs <;> simp only [h1, h2, h3, h4, h7]
  · cases pr
    · simp only [classify]
    · simp only [classify]
      split_ifs <;> simp only [h3, h5]
  · simp only [classify, h7]
  · simp only [classify, h7]

theorem union_assoc_sets (a b c : EventSets) : (a.union b).union c = a.union (b.union c) := by
  simp [EventSets.union, Finset.union_assoc]

theorem union_right_comm_sets (a b c : EventSets) : (a.union b).union c = (a.union c).union b := by
  simp only [EventSets.union, Finset.union_right_comm]

theorem union_right_idem (a b : EventSets) : (a.union b).union b = a.union b := by
  simp [EventSets.union, Finset.union_assoc]

theorem classifyAll_swap (user : String) (s : EventSets) (a b : Payload) (l : List Payload) :
    classifyAll user s (a :: b :: l) = classifyAll user s (b :: a :: l) := by
  simp only [classifyAll]
  rw [classify_union user s a, classify_union user s b]
  cases ha : classify user EventSets.empty a with
  | error x =>
    cases hb : classify user EventSets.empty b with
    | error y => rfl
    | ok db =>
      simp only []
      rw [classify_union user _ a, ha]
  | ok da =>
    cases hb : classify user EventSets.empty b with
    | error y =>
      simp only []
      rw [classify_union user _ b, hb]
    | ok db =>
      simp only []
      rw [classify_union user _ a, classify_union user _ b, ha, hb]
      simp only []
      rw [union_right_comm_sets]

theorem classifyAll_perm (user : String) {l1 l2 : List Payload} (h : l1.Perm l2) :
    ∀ s, classifyAll user s l1 = classifyAll user s l2 := by
  induction h with
  | nil => intro s; rfl
  | cons a _ ih =>
    intro s
    simp only [classifyAll]
    cases classify user s a with
    | error x => rfl
    | ok s1 => exact ih s1
  | swap a b l => intro s; exact classifyAll_swap user s b a l
  | trans _ _ ih1 ih2 => intro s; rw [ih1 s, ih2 s]

theorem classifyAll_dup (user : String) (s : EventSets) (p : Payload) (l : List Payload) :
    classifyAll user s (p :: p :: l) = classifyAll user s (p :: l) := by
  simp only [classifyAll]
  rw [classify_union user s p]
  cases hp : classify user EventSets.empty p with
  | error x => rfl
  | ok d =>
    simp only []
    rw [classify_union user _ p, hp]
    simp only []
    rw [union_right_idem]

theorem parseAll_eq (events : List Event) :
    parseAll events =
      if events.all (fun e => e.ParsePayload.isSome) then
        .ok (events.filterMap (fun e => e.ParsePayload))
      else .error .fatal := by
  induction events with
  | nil => rfl
  | cons e es ih =>
    simp only [parseAll, ih]
    cases hp : e.ParsePayload with
    | none => simp [hp]
    | some p =>
      by_cases hall : es.all (fun e => e.ParsePayload.isSome) = true
      · simp [hp, hall, List.filterMap_cons]
      · simp [hp, hall]

theorem organizeEvents_perm (user : String) {l1 l2 : List Event} (h : l1.Perm l2) :
    organizeEvents user l1 = organizeEvents user l2 := by
  unfold organizeEvents
  have hall : l1.all (fun e => e.ParsePayload.isSome) = l2.all (fun e => e.ParsePayload.isSome) := by
    rw [Bool.eq_iff_iff, List.all_eq_true, List.all_eq_true]
    exact ⟨fun hx x hm => hx x (h.mem_iff.2 hm), fun hx x hm => hx x (h.mem_iff.1 hm)⟩
  rw [parseAll_eq, parseAll_eq, hall]
  split_ifs
  · simp only []
    rw [classifyAll_perm user (h.filterMap _)]
  · rfl

theorem organizeEvents_dup_head (user : String) (e : Event) (l : List Event) :
    organizeEvents user (e :: e :: l) = organizeEvents user (e :: l) := by
  unfold organizeEvents
  rw [parseAll_eq, parseAll_eq]
  cases hp : e.ParsePayload with
  | none => simp [hp]
  | some p =>
    by_cases hall : l.all (fun e => e.ParsePayload.isSome) = true
    · simp only [List.all_cons, hp, Option.isSome_some, Bool.true_and, hall, if_true,
        List.filterMap_cons, classifyAll_dup]
    · simp [hp, hall]

/-- C11: `organizeEvents` does not depend on the order of the events: on a permutation of the
event list it ends in the same way, returning the same six sets. -/
theorem organizeEvents_order_independent (user : String) (l1 l2 : List Event)
    (h : l1.Perm l2) : organizeEvents user l1 = organizeEvents user l2 :=
  organizeEvents_perm user h

/-- Instance of C11: "merged, then opened" gives what "opened, then merged" gives. -/
theorem organizeEvents_order_independent_witness :
    organizeEvents "Harwayne"
        [decoded (.PullRequestEvent (some "closed") (some prFixBugMerged)),
         decoded (.PullRequestEvent (some "opened") (some prFixBug))] =
      organizeEvents "Harwayne" openedThenMerged :=
  organizeEvents_order_independent "Harwayne" _ _ (List.Perm.swap _ _ _)

/-- C12: an event that occurs twice in the list, at any two positions, can be dropped once
without changing how `organizeEvents` ends; and no set of an `EventSets` holds a title more
than once. -/
theorem organizeEvents_duplicate (user : String) (e : Event) (l1 l2 l3 : List Event) :
    organizeEvents user (l1 ++ (e :: l2) ++ (e :: l3)) =
      organizeEvents user (l1 ++ (e :: l2) ++ l3) ∧
    (∀ (r : EventSets) (t : String),
      r.merged.val.count t ≤ 1 ∧ r.abandoned.val.count t ≤ 1 ∧
      r.underReview.val.count t ≤ 1 ∧ r.inProgress.val.count t ≤ 1 ∧
      r.reviewed.val.count t ≤ 1 ∧ r.issues.val.count t ≤ 1) := by
  constructor
  · have h1 : (l1 ++ (e :: l2) ++ (e :: l3)).Perm (e :: e :: (l1 ++ l2 ++ l3)) := by
      refine (List.perm_middle).trans (List.Perm.cons e ?_)
      rw [List.append_assoc, List.append_assoc]
      refine (List.perm_middle).trans (List.Perm.cons e ?_)
      exact List.Perm.refl _
    have h2 : (l1 ++ (e :: l2) ++ l3).Perm (e :: (l1 ++ l2 ++ l3)) := by
      rw [List.append_assoc, List.append_assoc]
      refine (List.perm_middle).trans (List.Perm.cons e ?_)
      exact List.Perm.refl _
    rw [organizeEvents_perm user h1, organizeEvents_perm user h2, organizeEvents_dup_head]
  · intro r t
    exact ⟨Multiset.nodup_iff_count_le_one.1 r.merged.nodup t,
      Multiset.nodup_iff_count_le_one.1 r.abandoned.nodup t,
      Multiset.nodup_iff_count_le_one.1 r.underReview.nodup t,
      Multiset.nodup_iff_count_le_one.1 r.inProgress.nodup t,
      Multiset.nodup_iff_count_le_one.1 r.reviewed.nodup t,
      Multiset.nodup_iff_count_le_one.1 r.issues.nodup t⟩

/-! ## The time window -/

theorem filterLoop_eq (startTime duration : Int) (l : List Event)
    (h : ∀ e ∈ l, e.CreatedAt ≠ none) (events : List Event) :
    filterLoop startTime (startTime + duration) events l =
      .ok (events ++ l.filter (inWindow startTime duration)) := by
  induction l generalizing events with
  | nil => simp [filterLoop]
  | cons e rest ih =>
    have hrest : ∀ x ∈ rest, x.CreatedAt ≠ none := fun x hx => h x (List.mem_cons_of_mem _ hx)
    cases hc : e.CreatedAt with
    | none => exact absurd hc (h e (List.mem_cons_self _ _))
    | some t =>
      simp only [filterLoop, hc]
      by_cases hw : t > startTime ∧ t < startTime + duration
      · have hin : inWindow startTime duration e = true := by
          simp only [inWindow, hc, Bool.and_eq_true, decide_eq_true_eq]
          exact hw
        rw [if_pos hw, ih hrest, List.filter_cons_of_pos hin, List.append_assoc]
        rfl
      · have hout : ¬ inWindow startTime duration e = true := by
          simp only [inWindow, hc, Bool.and_eq_true, decide_eq_true_eq]
          exact hw
        rw [if_neg hw, ih hrest, List.filter_cons_of_neg hout]

/-- On a list of events that all carry a creation instant, `filterEventsForTime` returns
the events `e` with start < e.createdAt < start + duration, in the original order and with
repetitions kept; an event created exactly at start or at start + duration is left out, and
the empty list gives the empty list. -/
theorem filterEventsForTime_window (duration start : Int) (unfiltered : List Event)
    (h : ∀ e ∈ unfiltered, e.CreatedAt ≠ none) :
    filterEventsForTime duration unfiltered start =
        .ok (unfiltered.filter (inWindow start duration)) ∧
    (∀ e t, e.CreatedAt = some t →
      (e ∈ unfiltered.filter (inWindow start duration) ↔
        e ∈ unfiltered ∧ start < t ∧ t < start + duration)) ∧
    (∀ e, e.CreatedAt = some start ∨ e.CreatedAt = some (start + duration) →
      e ∉ unfiltered.filter (inWindow start duration)) ∧
    filterEventsForTime duration [] start = .ok [] := by
  refine ⟨?_, ?_, ?_, rfl⟩
  · unfold filterEventsForTime
    simpa using filterLoop_eq start duration unfiltered h []
  · intro e t ht
    simp [List.mem_filter, inWindow, ht]
  · intro e he hmem
    rw [List.mem_filter] at hmem
    rcases he with he | he
    · simp [inWindow, he] at hmem
    · simp [inWindow, he] at hmem

/-- With start 0 and duration 10 the events at 0 and at 10 are dropped, the two
events at 5 are both kept, in order. -/
theorem filterEventsForTime_window_witness :
    filterEventsForTime 10 [pushAt 0, pushAt 5, pushAt 10, pushAt 7, pushAt 5, pushAt 11] 0 =
      .ok [pushAt 5, pushAt 7, pushAt 5] :=
  (filterEventsForTime_window 10 0
    [pushAt 0, pushAt 5, pushAt 10, pushAt 7, pushAt 5, pushAt 11]
    (by decide)).1

/-- An event without creation instant, wherever it stands, stops `filterEventsForTime`. -/
theorem filterLoop_abort (startTime endTime : Int) (l : List Event)
    (h : ∃ e ∈ l, e.CreatedAt = none) (events : List Event) :
    filterLoop startTime endTime events l = .error .nilDereference := by
  induction l generalizing events with
  | nil =>
    obtain ⟨e, he, -⟩ := h
    cases he
  | cons x rest ih =>
    cases hx : x.CreatedAt with
    | none => simp only [filterLoop, hx]
    | some t =>
      have hrest : ∃ e ∈ rest, e.CreatedAt = none := by
        obtain ⟨e, he, hn⟩ := h
        rcases List.mem_cons.1 he with rfl | he
        · rw [hx] at hn
          cases hn
        · exact ⟨e, he, hn⟩
      simp only [filterLoop, hx]
      split_ifs
      · exact ih hrest _
      · exact ih hrest _

/-- C13, the failing run: on an event without creation instant `filterEventsForTime` stops
at the method call on the nil `CreatedAt` of line 106 and returns no list, alone or after an
event inside the window, where the claim has it return the events inside the window (none,
and the event at 5). -/
theorem filterEventsForTime_without_CreatedAt (duration start : Int) :
    filterEventsForTime duration [decoded .PushEvent] start = .error .nilDereference ∧
    filterEventsForTime 10 [pushAt 5, decoded .PushEvent] 0 = .error .nilDereference ∧
    filterEventsForTime 10 [pushAt 5] 0 = .ok [pushAt 5] ∧
    inWindow start duration (decoded .PushEvent) = false :=
  ⟨rfl, rfl, rfl, rfl⟩

/-! ## Titles -/

theorem sep_unique (t1 u1 t2 u2 : List Char)
    (h : t1 ++ ']' :: '(' :: u1 = t2 ++ ']' :: '(' :: u2)
    (h1 : ¬ [']', '('] <:+: t2 ∨ ¬ [']', '('] <:+: u1)
    (h2 : ¬ [']', '('] <:+: t1 ∨ ¬ [']', '('] <:+: u2) : t1 = t2 ∧ u1 = u2 := by
  rcases List.append_eq_append_iff.1 h with ⟨a, ha, hb⟩ | ⟨a, ha, hb⟩
  · -- t2 = t1 ++ a
    cases a with
    | nil => simp at ha hb; exact ⟨ha.symm, by simpa using hb⟩
    | cons c a =>
      cases a with
      | nil => simp at hb
      | cons c2 a =>
        simp only [List.cons_append, List.cons.injEq] at hb
        obtain ⟨rfl, rfl, hb⟩ := hb
        exfalso
        rcases h1 with h1 | h1
        · exact h1 ⟨t1, a, by simp [ha]⟩
        · exact h1 ⟨a, u2, by simp [hb]⟩
  · cases a with
    | nil => simp at ha hb; exact ⟨ha, by simpa using hb.symm⟩
    | cons c a =>
      cases a with
      | nil => simp at hb
      | cons c2 a =>
        simp only [List.cons_append, List.cons.injEq] at hb
        obtain ⟨rfl, rfl, hb⟩ := hb
        exfalso
        rcases h2 with h2 | h2
        · exact h2 ⟨t2, a, by simp [ha]⟩
        · exact h2 ⟨a, u1, by simp [hb]⟩

theorem title_unique (t1 u1 t2 u2 : String)
    (h : "[" ++ t1 ++ "](" ++ u1 ++ ")" = "[" ++ t2 ++ "](" ++ u2 ++ ")")
    (h1 : strings.Contains t2 "](" = false ∨ strings.Contains u1 "](" = false)
    (h2 : strings.Contains t1 "](" = false ∨ strings.Contains u2 "](" = false) :
    t1 = t2 ∧ u1 = u2 := by
  have hd := congrArg String.data h
  simp only [String.data_append] at hd
  have hd2 : t1.data ++ ']' :: '(' :: u1.data = t2.data ++ ']' :: '(' :: u2.data := by
    have e1 : ∀ t u : String, "[".data ++ t.data ++ "](".data ++ u.data ++ ")".data =
        '[' :: ((t.data ++ ']' :: '(' :: u.data) ++ [')']) := by
      intro t u
      simp
    rw [e1, e1] at hd
    exact List.append_cancel_right (List.cons.inj hd).2
  have conv : ∀ s : String, strings.Contains s "](" = false → ¬ [']', '('] <:+: s.data := by
    intro s hs hin
    have := (containsChars_iff s.data [']', '(']).2 hin
    unfold strings.Contains at hs
    rw [show ("](" : String).data = [']', '('] from rfl] at hs
    rw [this] at hs
    cases hs
  obtain ⟨ht, hu⟩ := sep_unique _ _ _ _ hd2 (h1.imp (conv _) (conv _)) (h2.imp (conv _) (conv _))
  exact ⟨String.ext ht, String.ext hu⟩


/-- C14: for every title text and URL, `prTitle` and `issueTitle` both give
"[" ++ text ++ "](" ++ url ++ ")"; so an issue comment on a pull request and a review comment
on it, with the same title text and URL and authors other than the tracked user, give one
and the same title, and reviewed ends up with exactly that one entry. -/
theorem titles_agree (text url : String) :
    (∀ (author : Option User) (merged : Option Bool),
      prTitle (some ⟨some text, some url, author, merged⟩) =
        "[" ++ text ++ "](" ++ url ++ ")") ∧
    (∀ (author : Option User) (links : Option PullRequestLinks),
      issueTitle (some ⟨some text, some url, author, links⟩) =
        "[" ++ text ++ "](" ++ url ++ ")") ∧
    (∀ (user : String) (issue : Issue) (pr : PullRequest) (c1 : Option IssueComment)
        (c2 : Option PullRequestComment),
      issue.Title = some text → issue.HTMLURL = some url →
      pr.Title = some text → pr.HTMLURL = some url →
      issue.IsPullRequest = true → User.GetLogin issue.User ≠ user →
      User.GetLogin pr.User ≠ user →
      issueTitle (some issue) = prTitle (some pr) ∧
      ∃ r, organizeEvents user
          [decoded (.IssueCommentEvent (some issue) c1),
           decoded (.PullRequestReviewCommentEvent (some pr) c2)] = .ok r ∧
        r.reviewed = {"[" ++ text ++ "](" ++ url ++ ")"} ∧ r.reviewed.card = 1) := by
  refine ⟨fun _ _ => rfl, fun _ _ => rfl, ?_⟩
  intro user issue pr c1 c2 h1 h2 h3 h4 h5 h6 h7
  have hi : issueTitle (some issue) = "[" ++ text ++ "](" ++ url ++ ")" := by
    simp [issueTitle, Issue.GetTitle, Issue.GetHTMLURL, h1, h2]
  have hp : prTitle (some pr) = "[" ++ text ++ "](" ++ url ++ ")" := by
    simp [prTitle, PullRequest.GetTitle, PullRequest.GetHTMLURL, h3, h4]
  refine ⟨hi.trans hp.symm, ?_⟩
  simp only [organizeEvents, parseAll, decoded, classifyAll, classify, h5, h6, h7, if_true,
    if_false, hi, hp]
  refine ⟨_, rfl, ?_, ?_⟩ <;> simp [cleanUp_eq, EventSets.empty]

/-- Instance of C14 on "Add feature" at "url2", commented on by the tracked user. -/
theorem titles_agree_witness :
    issueTitle (some (issueAddFeature "octocat" (some ⟨none⟩))) =
        prTitle (some (prAddFeature "octocat")) ∧
      ∃ r, organizeEvents "Harwayne"
          [decoded (.IssueCommentEvent (some (issueAddFeature "octocat" (some ⟨none⟩))) none),
           decoded (.PullRequestReviewCommentEvent (some (prAddFeature "octocat")) none)] =
            .ok r ∧
        r.reviewed = {"[" ++ "Add feature" ++ "](" ++ "url2" ++ ")"} ∧ r.reviewed.card = 1 :=
  (titles_agree "Add feature" "url2").2.2 "Harwayne" (issueAddFeature "octocat" (some ⟨none⟩))
    (prAddFeature "octocat") none none rfl rfl rfl rfl rfl (by decide) (by decide)

/-- The format does not escape its arguments: with strings that are not URLs in the URL
position, two different pairs can give one title. -/
theorem title_format_unescaped :
    prTitle (some (prOf "a](b" "c")) = prTitle (some (prOf "a" "b](c")) ∧
    issueTitle (some ⟨some "a](b", some "c", none, none⟩) =
      issueTitle (some ⟨some "a", some "b](c", none, none⟩) ∧
    ("a](b" : String) ≠ "a" ∧ ("c" : String) ≠ "b](c" :=
  ⟨rfl, rfl, by decide, by decide⟩

/-- C15: for all title texts `t1`, `t2` and URLs `u1`, `u2`, equal titles come from equal
title texts and equal URLs, for `prTitle`, for `issueTitle` and between the two; so two
different issues or pull requests never have the same title and are never one set entry. -/
theorem title_injective (t1 t2 : String) (u1 u2 : URL) :
    (∀ a1 a2 m1 m2, prTitle (some ⟨some t1, some u1.val, a1, m1⟩) =
        prTitle (some ⟨some t2, some u2.val, a2, m2⟩) → t1 = t2 ∧ u1 = u2) ∧
    (∀ a1 a2 k1 k2, issueTitle (some ⟨some t1, some u1.val, a1, k1⟩) =
        issueTitle (some ⟨some t2, some u2.val, a2, k2⟩) → t1 = t2 ∧ u1 = u2) ∧
    (∀ a1 a2 k1 m2, issueTitle (some ⟨some t1, some u1.val, a1, k1⟩) =
        prTitle (some ⟨some t2, some u2.val, a2, m2⟩) → t1 = t2 ∧ u1 = u2) ∧
    (t1 ≠ t2 ∨ u1 ≠ u2 →
      ∀ a1 a2 m1 m2,
        ({prTitle (some ⟨some t1, some u1.val, a1, m1⟩),
          prTitle (some ⟨some t2, some u2.val, a2, m2⟩)} : Finset String).card = 2) := by
  have key : "[" ++ t1 ++ "](" ++ u1.val ++ ")" = "[" ++ t2 ++ "](" ++ u2.val ++ ")" →
      t1 = t2 ∧ u1 = u2 := by
    intro h
    obtain ⟨ht, hu⟩ :=
      title_unique t1 u1.val t2 u2.val h (Or.inr u1.noSeparator) (Or.inr u2.noSeparator)
    refine ⟨ht, ?_⟩
    cases u1
    cases u2
    cases hu
    rfl
  refine ⟨fun _ _ _ _ h => key h, fun _ _ _ _ h => key h, fun _ _ _ _ h => key h, ?_⟩
  intro hne a1 a2 m1 m2
  apply Finset.card_pair
  intro h
  obtain ⟨ht, hu⟩ := key h
  rcases hne with hne | hne
  · exact hne ht
  · exact hne hu

/-- Instance of C15: the pull request "Fix bug" at "url", before and after its merge. -/
theorem title_injective_witness :
    prTitle (some ⟨some "Fix bug", some "url", none, none⟩) =
        prTitle (some ⟨some "Fix bug", some "url", none, some true⟩) ∧
      ("Fix bug" : String) = "Fix bug" ∧
      (⟨"url", by decide⟩ : URL) = ⟨"url", by decide⟩ :=
  ⟨rfl,
    (title_injective "Fix bug" "Fix bug" ⟨"url", by decide⟩ ⟨"url", by decide⟩).1
      none none none (some true) rfl⟩

/-! ## The report -/

theorem replaceFrom_tab_cons (new : List Char) (c : Char) (cs : List Char) :
    replaceFrom ['\t'] new 0 (c :: cs) =
      (if c = '\t' then new else [c]) ++ replaceFrom ['\t'] new 0 cs := by
  by_cases h : c = '\t'
  · simp [replaceFrom, startsWith, h]
  · simp [replaceFrom, startsWith, h]

theorem replaceFrom_tab_append (new a b : List Char) :
    replaceFrom ['\t'] new 0 (a ++ b) =
      replaceFrom ['\t'] new 0 a ++ replaceFrom ['\t'] new 0 b := by
  induction a with
  | nil => simp [replaceFrom]
  | cons c cs ih =>
    rw [List.cons_append, replaceFrom_tab_cons, replaceFrom_tab_cons, ih, List.append_assoc]

theorem replaceFrom_tab_newline (l : List Char) (h : '\n' ∉ l) :
    '\n' ∉ replaceFrom ['\t'] [' ', ' ', ' ', ' '] 0 l := by
  induction l with
  | nil => simp [replaceFrom]
  | cons c cs ih =>
    rw [replaceFrom_tab_cons]
    simp only [List.mem_cons, not_or] at h
    by_cases hc : c = '\t'
    · simp only [hc, if_true, List.mem_append, not_or]
      exact ⟨by decide, ih h.2⟩
    · simp only [hc, if_false, List.mem_append, List.mem_singleton, not_or]
      exact ⟨h.1, ih h.2⟩

theorem replaceFrom_tab_id (new l : List Char) (h : '\t' ∉ l) :
    replaceFrom ['\t'] new 0 l = l := by
  induction l with
  | nil => simp [replaceFrom]
  | cons c cs ih =>
    simp only [List.mem_cons, not_or] at h
    rw [replaceFrom_tab_cons, ih h.2, if_neg (fun hc => h.1 hc.symm)]
    rfl

theorem replaceFrom_tab_joinWith (new : List Char) (ls : List (List Char)) :
    replaceFrom ['\t'] new 0 (joinWith ['\n'] ls) =
      joinWith ['\n'] (ls.map (replaceFrom ['\t'] new 0)) := by
  induction ls with
  | nil => simp [joinWith, replaceFrom]
  | cons l rest ih =>
    cases rest with
    | nil => simp [joinWith]
    | cons l2 rest =>
      simp only [joinWith, List.map] at ih ⊢
      rw [replaceFrom_tab_append, replaceFrom_tab_append, ih]
      congr 2

theorem splitOnChar_ne_nil (sep : Char) (l : List Char) : splitOnChar sep l ≠ [] := by
  induction l with
  | nil => simp [splitOnChar]
  | cons c cs ih =>
    simp only [splitOnChar]
    split_ifs
    · simp
    · split <;> simp

theorem splitOnChar_append (sep : Char) (l r : List Char) (h : sep ∉ l) :
    splitOnChar sep (l ++ sep :: r) = l :: splitOnChar sep r := by
  induction l with
  | nil => simp [splitOnChar]
  | cons c cs ih =>
    simp only [List.mem_cons, not_or] at h
    have hc : ¬ c = sep := fun hc => h.1 hc.symm
    have ih2 := ih h.2
    show splitOnChar sep (c :: (cs ++ sep :: r)) = (c :: cs) :: splitOnChar sep r
    simp only [splitOnChar, if_neg hc, ih2]

theorem splitOnChar_single (sep : Char) (l : List Char) (h : sep ∉ l) :
    splitOnChar sep l = [l] := by
  induction l with
  | nil => simp [splitOnChar]
  | cons c cs ih =>
    simp only [List.mem_cons, not_or] at h
    have hc : ¬ c = sep := fun hc => h.1 hc.symm
    simp only [splitOnChar, if_neg hc, ih h.2]

theorem splitOnChar_joinWith (ls : List (List Char)) (hne : ls ≠ [])
    (h : ∀ l ∈ ls, '\n' ∉ l) : splitOnChar '\n' (joinWith ['\n'] ls) = ls := by
  induction ls with
  | nil => exact absurd rfl hne
  | cons l rest ih =>
    cases rest with
    | nil => simpa [joinWith] using splitOnChar_single '\n' l (h l (List.mem_cons_self _ _))
    | cons l2 rest =>
      simp only [joinWith, List.append_assoc, List.singleton_append]
      rw [splitOnChar_append '\n' l _ (h l (List.mem_cons_self _ _))]
      have := ih (by simp) (fun x hx => h x (List.mem_cons_of_mem _ hx))
      simp only [joinWith, List.append_assoc, List.singleton_append] at this
      rw [this]

/-- The lines of a joined and tab-expanded text are the tab-expanded lines. -/
theorem lines_ReplaceAll_Join (md : List String) (hne : md ≠ [])
    (h : ∀ s ∈ md, '\n' ∉ s.data) :
    lines (strings.ReplaceAll (strings.Join md "\n") "\t" "    ") =
      md.map (fun s => strings.ReplaceAll s "\t" "    ") := by
  unfold lines strings.ReplaceAll strings.Join
  have e1 : ("\n" : String).data = ['\n'] := rfl
  have e2 : ("\t" : String).data = ['\t'] := rfl
  have e3 : ("    " : String).data = [' ', ' ', ' ', ' '] := rfl
  simp only [e1, e2, e3]
  rw [replaceFrom_tab_joinWith, splitOnChar_joinWith]
  · simp [List.map_map, Function.comp_def]
  · simpa using hne
  · intro l hl
    simp only [List.mem_map] at hl
    obtain ⟨a, ⟨s, hs, rfl⟩, rfl⟩ := hl
    exact replaceFrom_tab_newline _ (h s hs)

theorem ReplaceAll_tab_append (a b : String) :
    strings.ReplaceAll (a ++ b) "\t" "    " =
      strings.ReplaceAll a "\t" "    " ++ strings.ReplaceAll b "\t" "    " := by
  apply String.ext
  have e2 : ("\t" : String).data = ['\t'] := rfl
  simp only [strings.ReplaceAll, String.data_append, e2, replaceFrom_tab_append]

theorem ReplaceAll_tab_id (t : String) (h : '\t' ∉ t.data) :
    strings.ReplaceAll t "\t" "    " = t := by
  apply String.ext
  have e2 : ("\t" : String).data = ['\t'] := rfl
  simp only [strings.ReplaceAll, e2, replaceFrom_tab_id _ _ h]

theorem isRange_card {s : Finset String} {keys : List String} (h : IsRange s keys) :
    s.card > 0 ↔ keys ≠ [] := by
  obtain ⟨-, rfl⟩ := h
  rw [gt_iff_lt, Finset.card_pos, Finset.nonempty_iff_ne_empty, ne_eq, ne_eq,
    List.toFinset_eq_empty_iff]

theorem printSection_newline (sect : Finset String) (range : List String) (title : String)
    (ht : '\n' ∉ title.data) (hr : ∀ pr ∈ range, '\n' ∉ pr.data) :
    ∀ s ∈ printSection sect range title, '\n' ∉ s.data := by
  intro s hs
  unfold printSection at hs
  split_ifs at hs
  · rcases List.mem_cons.1 hs with rfl | hs
    · simp only [String.data_append, List.mem_append, not_or]
      exact ⟨by decide, ht⟩
    · obtain ⟨pr, hpr, rfl⟩ := List.mem_map.1 hs
      simp only [String.data_append, List.mem_append, not_or]
      exact ⟨by decide, hr pr hpr⟩
  · cases hs

theorem printSection_expand (sect : Finset String) (range : List String) (title : String)
    (h : IsRange sect range) (ht : '\t' ∉ title.data) :
    (printSection sect range title).map (fun s => strings.ReplaceAll s "\t" "    ") =
      reportSection range title := by
  unfold printSection reportSection
  by_cases hr : range = []
  · have : ¬ sect.card > 0 := fun hc => (isRange_card h).1 hc hr
    simp [this, hr]
  · have : sect.card > 0 := (isRange_card h).2 hr
    simp only [this, if_true, hr, if_false, List.map_cons, List.map_map, ReplaceAll_tab_append,
      ReplaceAll_tab_id title ht, Function.comp_def]
    rfl

theorem markdown_lines_eq (e : EventSets) (o : RangeOrder) (hv : o.Visits e)
    (hnl : ∀ t ∈ e.titles, '\n' ∉ t.data) :
    lines (e.markdown o) =
      "* GitHub" :: (reportSection o.merged "Merged" ++ reportSection o.abandoned "Abandoned"
        ++ reportSection o.underReview "Under Review"
        ++ reportSection o.inProgress "In Progress"
        ++ reportSection o.reviewed "Reviewed" ++ reportSection o.issues "Issues") := by
  obtain ⟨h1, h2, h3, h4, h5, h6⟩ := hv
  have mem : ∀ {s : Finset String} {keys : List String}, IsRange s keys → s ⊆ e.titles →
      ∀ pr ∈ keys, '\n' ∉ pr.data := by
    intro s keys hk hsub pr hpr
    apply hnl
    apply hsub
    rw [← hk.2]
    exact List.mem_toFinset.2 hpr
  have sub1 : e.merged ⊆ e.titles := by intro x hx; simp [EventSets.titles, hx]
  have sub2 : e.abandoned ⊆ e.titles := by intro x hx; simp [EventSets.titles, hx]
  have sub3 : e.underReview ⊆ e.titles := by intro x hx; simp [EventSets.titles, hx]
  have sub4 : e.inProgress ⊆ e.titles := by intro x hx; simp [EventSets.titles, hx]
  have sub5 : e.reviewed ⊆ e.titles := by intro x hx; simp [EventSets.titles, hx]
  have sub6 : e.issues ⊆ e.titles := by intro x hx; simp [EventSets.titles, hx]
  unfold EventSets.markdown
  simp only []
  rw [lines_ReplaceAll_Join]
  · simp only [List.map_append, printSection_expand _ _ "Merged" h1 (by decide),
      printSection_expand _ _ "Abandoned" h2 (by decide),
      printSection_expand _ _ "Under Review" h3 (by decide),
      printSection_expand _ _ "In Progress" h4 (by decide),
      printSection_expand _ _ "Reviewed" h5 (by decide),
      printSection_expand _ _ "Issues" h6 (by decide)]
    rfl
  · simp
  · intro s hs
    simp only [List.mem_append, List.mem_singleton] at hs
    rcases hs with (((((rfl | hs) | hs) | hs) | hs) | hs) | hs
    · decide
    · exact printSection_newline _ _ _ (by decide) (mem h1 sub1) s hs
    · exact printSection_newline _ _ _ (by decide) (mem h2 sub2) s hs
    · exact printSection_newline _ _ _ (by decide) (mem h3 sub3) s hs
    · exact printSection_newline _ _ _ (by decide) (mem h4 sub4) s hs
    · exact printSection_newline _ _ _ (by decide) (mem h5 sub5) s hs
    · exact printSection_newline _ _ _ (by decide) (mem h6 sub6) s hs
/-- C16, as stated, fails: a title with a tab in it is not printed unchanged, because the
replacement of tabs by four spaces runs over the whole report. -/
theorem markdown_title_unchanged_counterexample :
    RangeOrder.Visits { RangeOrder.nil with merged := ["[a\tb](u)"] } tabbedSets ∧
    lines (tabbedSets.markdown { RangeOrder.nil with merged := ["[a\tb](u)"] }) =
      ["* GitHub", "    * Merged", "        * [a    b](u)"] ∧
    "        * [a\tb](u)" ∉
      lines (tabbedSets.markdown { RangeOrder.nil with merged := ["[a\tb](u)"] }) := by
  refine ⟨?_, by decide, by decide⟩
  simp [RangeOrder.Visits, IsRange, RangeOrder.nil, tabbedSets, EventSets.empty]

/-- C16, amended: when no title contains a newline, the lines of the report are the header
"* GitHub", then, for the sections Merged, Abandoned, Under Review, In Progress, Reviewed and
Issues in this order and only for the non-empty ones, the line of four spaces, "* " and the
section title, followed by one line per member, in the order the map was visited, of eight
spaces, "* " and the title with each tab written as four spaces; a title without a tab is
printed unchanged. -/
theorem markdown_lines (e : EventSets) (o : RangeOrder) (hv : o.Visits e)
    (hnl : ∀ t ∈ e.titles, '\n' ∉ t.data) :
    lines (e.markdown o) =
      "* GitHub" :: (reportSection o.merged "Merged" ++ reportSection o.abandoned "Abandoned"
        ++ reportSection o.underReview "Under Review"
        ++ reportSection o.inProgress "In Progress"
        ++ reportSection o.reviewed "Reviewed" ++ reportSection o.issues "Issues") ∧
    (∀ t : String, '\t' ∉ t.data → strings.ReplaceAll t "\t" "    " = t) :=
  ⟨markdown_lines_eq e o hv hnl, ReplaceAll_tab_id⟩

/-- Instance of amended C16: one merged pull request and one issue. -/
theorem markdown_lines_witness :
    lines (mergedAndIssue.markdown
        { RangeOrder.nil with merged := ["[Fix bug](url)"], issues := ["[Add feature](url2)"] }) =
      ["* GitHub", "    * Merged", "        * [Fix bug](url)", "    * Issues",
        "        * [Add feature](url2)"] :=
  (markdown_lines mergedAndIssue
    { RangeOrder.nil with merged := ["[Fix bug](url)"], issues := ["[Add feature](url2)"] }
    (by simp [RangeOrder.Visits, IsRange, RangeOrder.nil, mergedAndIssue, EventSets.empty])
    (by
      intro t ht
      simp only [EventSets.titles, mergedAndIssue, EventSets.empty, Finset.mem_union,
        Finset.not_mem_empty, Finset.mem_singleton, or_false, false_or] at ht
      rcases ht with rfl | rfl <;> decide)).1

/-- C17: `printSection` returns no line for an empty set, whatever the title, and the report
of six empty sets is the single line "* GitHub", with no newline after it. -/
theorem markdown_empty :
    (∀ (range : List String) (title : String), printSection ∅ range title = []) ∧
    (∀ o : RangeOrder, EventSets.empty.markdown o = "* GitHub") ∧
    (∀ o : RangeOrder, lines (EventSets.empty.markdown o) = ["* GitHub"]) :=
  ⟨fun _ _ => rfl, fun _ => rfl, fun _ => rfl⟩

/-- C19: `cleanUp` does not separate merged from abandoned: closing "Fix bug" once without
and once with a merge leaves its title in both sets, and the report prints it in both the
Merged and the Abandoned section. -/
theorem merged_and_abandoned_overlap (user : String) :
    organizeEvents user
        [decoded (.PullRequestEvent (some "closed") (some prFixBugClosed)),
         decoded (.PullRequestEvent (some "closed") (some prFixBugMerged))] =
      .ok mergedAndAbandoned ∧
    "[Fix bug](url)" ∈ mergedAndAbandoned.merged ∧
    "[Fix bug](url)" ∈ mergedAndAbandoned.abandoned ∧
    RangeOrder.Visits
      { RangeOrder.nil with merged := ["[Fix bug](url)"], abandoned := ["[Fix bug](url)"] }
      mergedAndAbandoned ∧
    lines (mergedAndAbandoned.markdown
        { RangeOrder.nil with merged := ["[Fix bug](url)"], abandoned := ["[Fix bug](url)"] }) =
      ["* GitHub", "    * Merged", "        * [Fix bug](url)", "    * Abandoned",
        "        * [Fix bug](url)"] := by
  refine ⟨rfl, ?_, ?_, ?_, by decide⟩
  · simp [mergedAndAbandoned]
  · simp [mergedAndAbandoned]
  · simp [RangeOrder.Visits, IsRange, RangeOrder.nil, mergedAndAbandoned, EventSets.empty]

/-! ## Decoding failures -/

/-- An event that fails to decode, wherever it stands, ends the run in `log.Fatalf`. -/
theorem organizeEvents_fatal (user : String) (events : List Event)
    (h : ∃ e ∈ events, e.ParsePayload = none) :
    organizeEvents user events = .error .fatal := by
  obtain ⟨e, he, hp⟩ := h
  have hall : ¬ events.all (fun e => e.ParsePayload.isSome) = true := by
    rw [List.all_eq_true]
    intro hx
    have := hx e he
    rw [hp] at this
    cases this
  simp only [organizeEvents, parseAll_eq, if_neg hall]

/-- A run that returns has decoded every event. -/
theorem organizeEvents_ok_decoded (user : String) (events : List Event) (r : EventSets)
    (h : organizeEvents user events = .ok r) : ∀ e ∈ events, e.ParsePayload ≠ none := by
  intro e he hp
  rw [organizeEvents_fatal user events ⟨e, he, hp⟩] at h
  cases h

theorem classify_ok_of_not_derefsNil (user : String) (s : EventSets) (p : Payload)
    (h : derefsNil p = false) : ∃ s1, classify user s p = .ok s1 := by
  rcases p with _ | r | ⟨i, c⟩ | ⟨a, i⟩ | ⟨a, pr⟩ | ⟨pr, c⟩ | _ | _
  · exact ⟨_, rfl⟩
  · cases r
    · simp [derefsNil] at h
    · simp only [classify, ite_self]; exact ⟨_, rfl⟩
  · cases i
    · simp [derefsNil] at h
    · simp only [classify]; split_ifs <;> exact ⟨_, rfl⟩
  · cases i
    · simp [derefsNil] at h
    · simp only [classify]; split_ifs <;> exact ⟨_, rfl⟩
  · simp only [classify]; split_ifs <;> exact ⟨_, rfl⟩
  · cases pr
    · simp [derefsNil] at h
    · simp only [classify]; split_ifs <;> exact ⟨_, rfl⟩
  · exact ⟨_, rfl⟩
  · exact ⟨_, rfl⟩

theorem classifyAll_ok_of_not_derefsNil (user : String) (ps : List Payload)
    (h : ∀ p ∈ ps, derefsNil p = false) (s : EventSets) :
    ∃ s1, classifyAll user s ps = .ok s1 := by
  induction ps generalizing s with
  | nil => exact ⟨s, rfl⟩
  | cons p ps ih =>
    obtain ⟨s1, h1⟩ := classify_ok_of_not_derefsNil user s p (h p (List.mem_cons_self _ _))
    simp only [classifyAll, h1]
    exact ih (fun q hq => h q (List.mem_cons_of_mem _ hq)) s1

/-- When every event decodes and no payload lacks a field that the switch dereferences, the
run returns. -/
theorem organizeEvents_returns (user : String) (events : List Event)
    (h : ∀ e ∈ events, ∃ p, e.ParsePayload = some p ∧ derefsNil p = false) :
    ∃ r, organizeEvents user events = .ok r := by
  have hall : events.all (fun e => e.ParsePayload.isSome) = true := by
    rw [List.all_eq_true]
    intro e he
    obtain ⟨p, hp, -⟩ := h e he
    simp [hp]
  have hps : ∀ p ∈ events.filterMap (fun e => e.ParsePayload), derefsNil p = false := by
    intro p hp
    obtain ⟨e, he, hep⟩ := List.mem_filterMap.1 hp
    obtain ⟨q, hq, hd⟩ := h e he
    rw [hq] at hep
    cases hep
    exact hd
  obtain ⟨s1, h1⟩ := classifyAll_ok_of_not_derefsNil user _ hps EventSets.empty
  exact ⟨s1.cleanUp, by simp only [organizeEvents, parseAll_eq, if_pos hall, h1]⟩

/-- C18, the failing run: both events decode, yet `organizeEvents` returns no `EventSets`,
because the create event has no ref type; with an event that does not decode in front, the
run ends in `log.Fatalf` instead. -/
theorem organizeEvents_decoded_but_no_result (user : String) :
    (∀ e ∈ [decoded .PushEvent, decoded (.CreateEvent none)], e.ParsePayload ≠ none) ∧
    organizeEvents user [decoded .PushEvent, decoded (.CreateEvent none)] =
      .error .nilDereference ∧
    organizeEvents user
        [{ CreatedAt := none, ParsePayload := none }, decoded (.CreateEvent none)] =
      .error .fatal := by
  refine ⟨by decide, rfl, rfl⟩

/-! ## The default start date -/

/-- C20: for every date, `lastCompletedWeekMonday` returns, and never reaches `log.Fatal`; the
date `d` it returns is a Monday with d + 7 ≤ today < d + 14, and it is the only such Monday. -/
theorem lastCompletedWeekMonday_spec (today : Int) :
    ∃ d, lastCompletedWeekMonday today = .ok d ∧ Weekday d = 1 ∧
      d + 7 ≤ today ∧ today < d + 14 ∧
      ∀ d2, Weekday d2 = 1 → d2 + 7 ≤ today → today < d2 + 14 → d2 = d := by
  unfold lastCompletedWeekMonday
  split_ifs with h1 h2 h3 h4 h5 h6 h0 <;>
    simp only [Weekday, AddDate] at * <;>
    first
    | (refine ⟨_, rfl, ?_, ?_, ?_, ?_⟩
       · omega
       · omega
       · omega
       · intro d2 hd2 ha hb
         omega)
    | (exfalso; omega)

end GithubSnippets
